import Mathlib

/-!
Verification of the dynamic-deployment and process-lifecycle orchestrator of the
hostedhost repository.  The JavaScript sources are shallowly embedded as Lean
definitions:

* `PortManager` with `allocatePort` / `releasePort` embeds
  `server/utils/portManager.js` (src/unnamed/part_002).
* The process registry (`runningProcesses`, a JS `Map`), `startBackendServer`,
  the `/deploy/dynamic`, `/stop/:projectName` and `/processes` handlers embed
  the hosting router of src/unnamed/part_005.
* `findDirs` and the second `/deploy/dynamic` pipeline embed
  src/server/routes/hosting.js (recursive structure search, appending `.env`
  synchronisation).

External effects (filesystem, child processes, MongoDB) are represented by
explicit state records and an oracle of stage outcomes, so every handler is a
pure function from request, oracle and state to response and state.
-/

namespace HostedHost

/-! Section: Port manager — src/unnamed/part_002 (`server/utils/portManager.js`)

`usedPorts` is the `Set` of held ports; `minPort`/`maxPort` are the hard-coded
bounds of the constructor.  `allocatePort` embeds the ascending scan
`for (let port = this.minPort; port <= this.maxPort; port++)`; the JS `throw`
on exhaustion becomes `none`. -/

structure PortManager where
  usedPorts : Finset Nat
deriving DecidableEq

def minPort : Nat := 3001

def maxPort : Nat := 4000

/-- The scan loop of `allocatePort`: starting at `port`, try `fuel` consecutive
candidates and return the first one not in `used`. -/
def findFreePort (used : Finset Nat) : Nat → Nat → Option Nat
  | _, 0 => none
  | port, fuel + 1 =>
    if port ∈ used then findFreePort used (port + 1) fuel else some port

def allocatePort (pm : PortManager) : Option (Nat × PortManager) :=
  match findFreePort pm.usedPorts minPort (maxPort + 1 - minPort) with
  | some p => some (p, ⟨insert p pm.usedPorts⟩)
  | none => none

def releasePort (pm : PortManager) (port : Nat) : PortManager :=
  if port ∈ pm.usedPorts then ⟨pm.usedPorts.erase port⟩ else pm

def isPortInUse (pm : PortManager) (port : Nat) : Bool :=
  decide (port ∈ pm.usedPorts)

def getUsedPorts (pm : PortManager) : Finset Nat :=
  pm.usedPorts

/-- Iterated allocation with no intervening release: the list of ports handed
out by `n` successive `allocatePort` calls, stopping at the first failure. -/
def allocN : Nat → PortManager → List Nat × PortManager
  | 0, pm => ([], pm)
  | n + 1, pm =>
    match allocatePort pm with
    | some (p, pm') =>
      let r := allocN n pm'
      (p :: r.1, r.2)
    | none => ([], pm)

/-- The allocator state with every port of the range held. -/
def fullPortManager : PortManager :=
  ⟨Finset.Icc minPort maxPort⟩

/-! Section: JavaScript string helpers -/

/-- JS `String.prototype.startsWith`. -/
def jsStartsWith (s pre : String) : Bool :=
  pre.data.isPrefixOf s.data

/-- JS `String.prototype.trim`: strip leading and trailing whitespace. -/
def jsTrim (s : String) : String :=
  ⟨((s.data.dropWhile Char.isWhitespace).reverse.dropWhile
    Char.isWhitespace).reverse⟩

/-- JS `String.prototype.toLowerCase` (ASCII case folding via
`Char.toLower`). -/
def jsToLower (s : String) : String :=
  ⟨s.data.map Char.toLower⟩

/-- JS `String.prototype.includes` (substring containment). -/
def containsSub (s pat : String) : Bool :=
  (List.range (s.data.length + 1)).any fun i => pat.data.isPrefixOf (s.data.drop i)

/-- Removal of the first occurrence of `pat`, on character lists. -/
def removeFirstOcc : List Char → List Char → List Char
  | [], _ => []
  | c :: cs, pat =>
    if pat.isPrefixOf (c :: cs) then (c :: cs).drop pat.length
    else c :: removeFirstOcc cs pat

/-- JS `s.replace(pat, "")` with a string pattern: it removes only the first
occurrence of `pat` (and returns `s` unchanged when `pat` does not occur). -/
def jsReplaceOnce (s pat : String) : String :=
  ⟨removeFirstOcc s.data pat.data⟩

/-! Section: Process registry — the module-level `runningProcesses` `Map` of
src/unnamed/part_005, as an insertion-ordered association list.  A JS `Map`
holds at most one value per key; `regSet` embeds `Map.set` (replace in place or
append) and `regDelete` embeds `Map.delete`. -/

structure ProcHandle where
  pid : Nat
  killed : Bool
deriving DecidableEq, Repr

abbrev Registry := List (String × ProcHandle)

def regHas (reg : Registry) (k : String) : Bool :=
  reg.any fun e => e.1 == k

def regGet? (reg : Registry) (k : String) : Option ProcHandle :=
  (reg.find? fun e => e.1 == k).map (·.2)

def regSet (reg : Registry) (k : String) (h : ProcHandle) : Registry :=
  if regHas reg k then reg.map fun e => if e.1 == k then (k, h) else e
  else reg ++ [(k, h)]

def regDelete (reg : Registry) (k : String) : Registry :=
  reg.filter fun e => e.1 != k

def regKeys (reg : Registry) : List String :=
  reg.map Prod.fst

/-! Section: `startBackendServer` — spawn/kill/register ordering (part_005 226–245) -/

inductive StartAction where
  | spawnNewProcess
  | killOld (signal : String)
  | registerNewHandle
deriving DecidableEq, Repr

def isKillAction : StartAction → Bool
  | .killOld _ => true
  | _ => false

def isSpawnAction : StartAction → Bool
  | .spawnNewProcess => true
  | _ => false

def isRegisterAction : StartAction → Bool
  | .registerNewHandle => true
  | _ => false

/-- The synchronous prologue of `startBackendServer`, as an ordered action
trace together with its registry effect: `spawn('npm', ['start'], …)` executes
first (line 226), then an existing handle under the same key is sent
`'SIGTERM'` (lines 240–243), then the new handle is stored with
`runningProcesses.set(projectKey, backendProcess)` (line 245). -/
def startBackendTrace (reg : Registry) (key : String) (h : ProcHandle) :
    List StartAction × Registry :=
  let acts := [StartAction.spawnNewProcess]
  let acts :=
    if regHas reg key then acts ++ [StartAction.killOld "SIGTERM"] else acts
  (acts ++ [StartAction.registerNewHandle], regSet reg key h)

/-- Whether `tr` performs an action satisfying `p` strictly before its first action
satisfying `q` (false when no `p`-action precedes). -/
def actionPrecedes (p q : StartAction → Bool) (tr : List StartAction) : Bool :=
  (tr.takeWhile fun a => !q a).any p

/-! Section: `POST /stop/:projectName` — part_005 lines 537–573 -/

/-- One document of the `projects` collection, reduced to the fields the stop
handler touches. -/
structure DbProject where
  userId : String
  name : String
  status : String
deriving DecidableEq, Repr

/-- MongoDB `updateOne({userId, name}, {$set: {status, …}})`: updates the first
matching document only. -/
def updateFirstStatus : List DbProject → String → String → String → List DbProject
  | [], _, _, _ => []
  | d :: rest, uid, nm, st =>
    if d.userId = uid ∧ d.name = nm then { d with status := st } :: rest
    else d :: updateFirstStatus rest uid nm st

structure SystemState where
  registry : Registry
  projects : List DbProject
deriving DecidableEq, Repr

inductive StopResponse where
  | stopped200
  | notFound404
deriving DecidableEq, Repr

/-- The stop handler: if `runningProcesses` has the key `userId-projectName`,
the process is sent `SIGTERM`, the entry is deleted and the project status is
set to `"stopped"`; otherwise a 404 response is returned and nothing changes. -/
def stopProject (st : SystemState) (userId projectName : String) :
    StopResponse × SystemState :=
  let projectKey := userId ++ "-" ++ projectName
  if regHas st.registry projectKey then
    (.stopped200,
      { registry := regDelete st.registry projectKey,
        projects := updateFirstStatus st.projects userId projectName "stopped" })
  else (.notFound404, st)

/-! Section: `GET /processes` — part_005 lines 626–652 -/

structure ProcInfo where
  projectName : String
  pid : Nat
  running : Bool
deriving DecidableEq, Repr

/-- The registry key of an (owner id, project name) pair:
`` `${userId}-${projectName}` ``. -/
def mkKey (userId projectName : String) : String :=
  userId ++ "-" ++ projectName

/-- The processes handler: it keeps the registry entries whose key
`startsWith(req.userId)` and recovers the project name with
`key.replace(`${req.userId}-`, '')`; `running` is `!process.killed`. -/
def getProcesses (reg : Registry) (userId : String) : List ProcInfo :=
  (reg.filter fun e => jsStartsWith e.1 userId).map fun e =>
    ⟨jsReplaceOnce e.1 (userId ++ "-"), e.2.pid, !e.2.killed⟩

/-! Section: `startBackendServer` readiness settlement — part_005 lines 247–287 -/

/-- Events the spawned backend can produce, tagged with the time in
milliseconds since the spawn: a stdout chunk, the OS `close` event (the
process exited), and the `error` event (the spawn itself failed). -/
inductive BEvent where
  | output (s : String) (t : Nat)
  | closed (code : Int) (t : Nat)
  | errored (t : Nat)
deriving DecidableEq, Repr

/-- The readiness test applied to each stdout chunk:
`output.includes('listening') || output.includes('started') ||
output.includes(String(port))`. -/
def isReadySignal (port : Nat) (s : String) : Bool :=
  containsSub s "listening" || containsSub s "started" ||
    containsSub s (toString port)

inductive StartResult where
  | resolved
  | rejected
deriving DecidableEq, Repr

/-- Settlement of the `startBackendServer` promise over the chronological
event list: a readiness output resolves it, the `error` event rejects it, and
the unconditional 5000 ms fallback timer resolves it.  The 30 s timeout
rejection is unreachable: the 5 s callback always runs first and both resolves
the promise and clears that timer (as do the readiness, `close` and `error`
handlers).  The `close` event never settles the promise: its handler only
clears the timer and deletes the registry entry. -/
def startSettle (port : Nat) : List BEvent → StartResult
  | [] => .resolved
  | .output s t :: es =>
    if 5000 ≤ t then .resolved
    else if isReadySignal port s then .resolved
    else startSettle port es
  | .closed _ t :: es =>
    if 5000 ≤ t then .resolved
    else startSettle port es
  | .errored t :: _ =>
    if 5000 ≤ t then .resolved
    else .rejected

/-! Section: `.env` synchronisation — src/server/routes/hosting.js lines 296–312 -/

/-- JS `envVars.join("\n")` (`Array.prototype.join`). -/
def joinVars : List String → String
  | [] => ""
  | [v] => v
  | v :: rest => v ++ "\n" ++ joinVars rest

/-- JS `v.split("=")[0]`: the part of `v` before its first `=` (all of `v` when no
`=` occurs). -/
def keyOf (v : String) : String :=
  ⟨v.data.takeWhile fun c => c != '='⟩

/-- The two variables of the sync step, in source order:
`` `VITE_API_URL=http://localhost:${allocatedPort}` `` and
`` `BACKEND_ADRESSE=http://localhost:${allocatedPort}` ``. -/
def envVarsFor (port : Nat) : List String :=
  ["VITE_API_URL=http://localhost:" ++ toString port,
   "BACKEND_ADRESSE=http://localhost:" ++ toString port]

/-- The `.env` synchronisation of the hosting.js dynamic pipeline: read the
file when it exists (`none` = no file), drop the variables whose key already
occurs anywhere in the content (`envContent.includes(v.split("=")[0])`), and
append the remaining ones with `fs.appendFile` (which creates the file when it
is absent).  The result is the content of `frontend/.env` afterwards. -/
def syncEnvContent (old : Option String) (port : Nat) : String :=
  let envContent := old.getD ""
  let envVars := (envVarsFor port).filter fun v => !containsSub envContent (keyOf v)
  if envVars.isEmpty then envContent
  else envContent ++ joinVars envVars ++ "\n"

/-- The lines of a file: split a character list at newline characters. -/
def splitNl : List Char → List (List Char)
  | [] => [[]]
  | c :: cs =>
    if c = '\n' then [] :: splitNl cs
    else
      match splitNl cs with
      | [] => [[c]]
      | l :: ls => (c :: l) :: ls

/-- Split a line at its first `=`: the key and the raw value. -/
def parseLine : List Char → List Char × List Char
  | [] => ([], [])
  | c :: cs =>
    if c = '=' then ([], cs)
    else (c :: (parseLine cs).1, (parseLine cs).2)

/-- The bindings of an `.env` content: one key/value record per nonempty line,
splitting each line at its first `=`. -/
def envBindings (content : String) : List (List Char × List Char) :=
  (splitNl content.data).filterMap fun l =>
    if l.isEmpty then none else some (parseLine l)

/-- The value an `.env` reader that keeps the first occurrence binds to `k`. -/
def envLookup (k : String) (content : String) : Option (List Char) :=
  ((envBindings content).find? fun e => e.1 == k.data).map (·.2)

/-- Newline-terminated concatenation of lines. -/
def joinLines : List String → String
  | [] => ""
  | l :: rest => l ++ "\n" ++ joinLines rest

/-- Every listed line is free of newline characters. -/
def NlFreeLines (ls : List String) : Prop :=
  ∀ l ∈ ls, ∀ c ∈ l.data, c ≠ '\n'

/-! Section: Recursive structure search — `findDirs` of hosting.js (lines 226–249) -/

/-- A forest of extracted directories in sibling order: `cons name sub rest`
is a directory called `name` with subdirectory forest `sub`, followed by its
sibling entries `rest`.  Plain files are omitted: `findDirs` skips every entry
failing `entry.isDirectory()`. -/
inductive FsForest where
  | nil
  | cons (name : String) (sub : FsForest) (rest : FsForest)
deriving DecidableEq, Repr

/-- The recursive `findDirs`, fused over the entry loop: `fr`/`bk` are the
current values of the `frontend`/`backend` variables and `root` the path so
far.  A direct case-insensitive name match overwrites the variable
unconditionally; the recursion into a subdirectory runs only while one of the
two is still missing, and its result is kept only where the variable is still
unset (`frontend = frontend || sub.frontend`). -/
def findDirsGo : List String → FsForest → Option (List String) →
    Option (List String) → Option (List String) × Option (List String)
  | _, .nil, fr, bk => (fr, bk)
  | root, .cons name sub rest, fr, bk =>
    let fullPath := root ++ [name]
    let fr1 := if jsToLower name == "frontend" then some fullPath else fr
    let bk1 := if jsToLower name == "backend" then some fullPath else bk
    let p :=
      if fr1.isNone || bk1.isNone then
        let s := findDirsGo fullPath sub none none
        (if fr1.isNone then s.1 else fr1, if bk1.isNone then s.2 else bk1)
      else (fr1, bk1)
    findDirsGo root rest p.1 p.2

/-- Entry point `await findDirs(tempExtractPath)`: both variables start as `null`. -/
def findDirs (f : FsForest) : Option (List String) × Option (List String) :=
  findDirsGo [] f none none

/-- Whether a directory whose lower-cased name equals `nm` occurs anywhere in
the forest, at any nesting depth. -/
def forestHasDir (nm : String) : FsForest → Bool
  | .nil => false
  | .cons name sub rest =>
    (jsToLower name == nm) || forestHasDir nm sub || forestHasDir nm rest

/-- Modelled from the spec: "recursive search; search stops at first match per
branch (first-found semantics, not best-match)" — the first directory in
depth-first pre-order whose lower-cased name equals `nm`. -/
def specFirstMatch (nm : String) : List String → FsForest → Option (List String)
  | _, .nil => none
  | root, .cons name sub rest =>
    let fullPath := root ++ [name]
    if jsToLower name == nm then some fullPath
    else
      match specFirstMatch nm fullPath sub with
      | some p => some p
      | none => specFirstMatch nm root rest

/-! Section: The two dynamic-deployment pipelines

State visible to the claims: whether the uploaded blob is still on disk,
whether the project directory exists, the content of `frontend/.env`, the port
allocator, and the process registry.  The outcome of each external operation
(database lookup, extraction, manifest reads, npm commands, backend events,
database insert) is an input drawn from `DeployEnv`. -/

structure DeployState where
  blobOnDisk : Bool
  projectDirExists : Bool
  frontendEnv : Option String
  pm : PortManager
  registry : Registry
deriving DecidableEq

inductive DeployError where
  | extraction
  | structureMissing
  | manifestFrontend
  | manifestBackend
  | portExhausted
  | installBackend
  | installFrontend
  | startup
  | dbInsert
deriving DecidableEq, Repr

inductive DeployResponse where
  | badRequest
  | conflict
  | serverError (e : DeployError)
  | ok (port : Nat)
deriving DecidableEq, Repr

structure DeployRequest where
  userId : String
  projectName : String
  hasFile : Bool
deriving DecidableEq, Repr

/-- One entry of `fs.readdir(tempExtractPath, { withFileTypes: true })`, for
the flat structure check of part_005. -/
structure DirEntry where
  name : String
  isDir : Bool
deriving DecidableEq, Repr

structure DeployEnv where
  existingProject : Bool
  extractOk : Bool
  entries : List DirEntry
  tree : FsForest
  frontendEnvFile : Option String
  frontendManifestOk : Bool
  backendManifestOk : Bool
  backendInstallOk : Bool
  frontendInstallOk : Bool
  newPid : Nat
  startEvents : List BEvent
  dbInsertOk : Bool

/-- The flat structure check of part_005 (lines 341–353): only the top-level
entries are examined, and a later matching entry overwrites an earlier one. -/
def findTopDirs (entries : List DirEntry) : Option String × Option String :=
  entries.foldl
    (fun acc e =>
      if e.isDir then
        if jsToLower e.name == "frontend" then (some e.name, acc.2)
        else if jsToLower e.name == "backend" then (acc.1, some e.name)
        else acc
      else acc)
    (none, none)

/-- The `.env` handling of part_005 (lines 392–412): when the file exists and
already mentions either key anywhere, nothing is touched; otherwise the whole
file is written (overwriting any existing content) with exactly the two
keys. -/
def writeEnvPart005 (old : Option String) (port : Nat) : Option String :=
  let needsEnvUpdate :=
    match old with
    | some c => !(containsSub c "BACKEND_ADRESSE" || containsSub c "VITE_API_URL")
    | none => true
  if needsEnvUpdate then
    some ("VITE_API_URL=http://localhost:" ++ toString port ++ "\n" ++
      "BACKEND_ADRESSE=http://localhost:" ++ toString port ++ "\n")
  else old

/-- The catch block of the part_005 dynamic handler (lines 506–533): delete
the uploaded blob when `tempFilePath` was set, release the port when one was
allocated, and SIGTERM-and-delete any registry entry under the catch key —
built from the *untrimmed* `req.body.projectName || "unknown"`.  The project
directory is not removed. -/
def deployCatch (st : DeployState) (tempFileSet : Bool) (allocatedPort : Option Nat)
    (catchKey : String) : DeployState :=
  let st := if tempFileSet then { st with blobOnDisk := false } else st
  let st :=
    match allocatedPort with
    | some p => { st with pm := releasePort st.pm p }
    | none => st
  if regHas st.registry catchKey then
    { st with registry := regDelete st.registry catchKey }
  else st

/-- The `POST /deploy/dynamic` handler of src/unnamed/part_005 (lines
291–534).  `createProjectDirectory` (defined in `utils/fileSystem.js`, not
part of the corpus) is summarised by its effect of making the project
directory exist, per the spec's `hosted-sites/dynamic/{projectName}` layout.
The build step is absent from the state: its failure only logs a warning.
`startBackendServer` contributes its registry insertion (after terminating any
process registered under the same trimmed key) and its settlement over
`env.startEvents`. -/
def deployDynamic (req : DeployRequest) (env : DeployEnv) (st : DeployState) :
    DeployResponse × DeployState :=
  if !req.hasFile then (.badRequest, st)
  else if jsTrim req.projectName = "" then (.badRequest, st)
  else if env.existingProject then (.conflict, st)
  else
    let catchName := if req.projectName = "" then "unknown" else req.projectName
    let catchKey := req.userId ++ "-" ++ catchName
    let projectKey := req.userId ++ "-" ++ jsTrim req.projectName
    let st := { st with projectDirExists := true }
    if !env.extractOk then
      (.serverError .extraction, deployCatch st true none catchKey)
    else
      let dirs := findTopDirs env.entries
      if dirs.1.isNone || dirs.2.isNone then
        (.serverError .structureMissing, deployCatch st true none catchKey)
      else if !env.frontendManifestOk then
        (.serverError .manifestFrontend, deployCatch st true none catchKey)
      else if !env.backendManifestOk then
        (.serverError .manifestBackend, deployCatch st true none catchKey)
      else
        match allocatePort st.pm with
        | none => (.serverError .portExhausted, deployCatch st true none catchKey)
        | some (p, pm') =>
          let st := { st with pm := pm' }
          let st := { st with frontendEnv := writeEnvPart005 env.frontendEnvFile p }
          if !env.backendInstallOk then
            (.serverError .installBackend, deployCatch st true (some p) catchKey)
          else if !env.frontendInstallOk then
            (.serverError .installFrontend, deployCatch st true (some p) catchKey)
          else
            let st := { st with
              registry := regSet st.registry projectKey ⟨env.newPid, false⟩ }
            if startSettle p env.startEvents = .rejected then
              (.serverError .startup, deployCatch st true (some p) catchKey)
            else if !env.dbInsertOk then
              (.serverError .dbInsert, deployCatch st true (some p) catchKey)
            else (.ok p, { st with blobOnDisk := false })

/-- The catch block of the hosting.js dynamic handler (lines 385–395): delete
the uploaded blob, remove the project directory recursively, and release the
port when one was allocated. -/
def hostingCatch (st : DeployState) (allocatedPort : Option Nat) : DeployState :=
  let st := { st with blobOnDisk := false, projectDirExists := false }
  match allocatedPort with
  | some p => { st with pm := releasePort st.pm p }
  | none => st

/-- The `POST /deploy/dynamic` handler of src/server/routes/hosting.js (lines
176–396): recursive structure search via `findDirs`, appending `.env`
synchronisation via `syncEnvContent`, no process management at all.  The inner
insert-failure handler (lines 345–355) performs the same cleanup as the outer
catch.  As for part_005, `createProjectDirectory` is summarised by its
effect. -/
def deployDynamicHosting (req : DeployRequest) (env : DeployEnv) (st : DeployState) :
    DeployResponse × DeployState :=
  if !req.hasFile then (.badRequest, st)
  else if jsTrim req.projectName = "" then (.badRequest, st)
  else if env.existingProject then (.conflict, st)
  else
    let st := { st with projectDirExists := true }
    if !env.extractOk then (.serverError .extraction, hostingCatch st none)
    else
      let dirs := findDirs env.tree
      if dirs.1.isNone || dirs.2.isNone then
        (.serverError .structureMissing, hostingCatch st none)
      else if !env.frontendManifestOk then
        (.serverError .manifestFrontend, hostingCatch st none)
      else if !env.backendManifestOk then
        (.serverError .manifestBackend, hostingCatch st none)
      else
        match allocatePort st.pm with
        | none => (.serverError .portExhausted, hostingCatch st none)
        | some (p, pm') =>
          let st := { st with pm := pm' }
          let st := { st with
            frontendEnv := some (syncEnvContent env.frontendEnvFile p) }
          if !env.dbInsertOk then
            (.serverError .dbInsert, hostingCatch st (some p))
          else (.ok p, { st with blobOnDisk := false })

/-- The concrete deployment environment that fails at the backend
dependency-install stage; every earlier stage succeeds. -/
def envInstallFail : DeployEnv where
  existingProject := false
  extractOk := true
  entries := [⟨"frontend", true⟩, ⟨"backend", true⟩]
  tree := .nil
  frontendEnvFile := none
  frontendManifestOk := true
  backendManifestOk := true
  backendInstallOk := false
  frontendInstallOk := true
  newPid := 7
  startEvents := []
  dbInsertOk := true

/-- The initial state of a fresh deployment: the uploaded blob is on disk,
nothing else exists. -/
def st0 : DeployState := ⟨true, false, none, ⟨∅⟩, []⟩

/-- The concrete environment whose backend process crashes (closes) 1 s after
the spawn, before any readiness output; every other stage succeeds. -/
def envCrash : DeployEnv where
  existingProject := false
  extractOk := true
  entries := [⟨"frontend", true⟩, ⟨"backend", true⟩]
  tree := .nil
  frontendEnvFile := none
  frontendManifestOk := true
  backendManifestOk := true
  backendInstallOk := true
  frontendInstallOk := true
  newPid := 7
  startEvents := [.closed 1 1000]
  dbInsertOk := true

/-- The concrete environment whose backend spawn itself fails (`error` event
100 ms after the spawn). -/
def envSpawnError : DeployEnv where
  existingProject := false
  extractOk := true
  entries := [⟨"frontend", true⟩, ⟨"backend", true⟩]
  tree := .nil
  frontendEnvFile := none
  frontendManifestOk := true
  backendManifestOk := true
  backendInstallOk := true
  frontendInstallOk := true
  newPid := 7
  startEvents := [.errored 100]
  dbInsertOk := true

/-- The concrete forest `[a/frontend, frontend]`: depth-first pre-order finds
`a/frontend` first, but the later top-level sibling match overwrites it. -/
def cexForest : FsForest :=
  .cons "a" (.cons "frontend" .nil .nil) (.cons "frontend" .nil .nil)

/-- A deployment environment whose extracted tree holds a single directory
`x` with no frontend or backend anywhere. -/
def envNoDirs : DeployEnv where
  existingProject := false
  extractOk := true
  entries := [⟨"x", true⟩]
  tree := .cons "x" .nil .nil
  frontendEnvFile := none
  frontendManifestOk := true
  backendManifestOk := true
  backendInstallOk := true
  frontendInstallOk := true
  newPid := 7
  startEvents := []
  dbInsertOk := true

theorem findFreePort_some_spec (used : Finset Nat) :
    ∀ fuel port p, findFreePort used port fuel = some p →
      port ≤ p ∧ p < port + fuel ∧ p ∉ used ∧
        ∀ q, port ≤ q → q < p → q ∈ used := by
  intro fuel
  induction fuel with
  | zero => intro port p h; simp [findFreePort] at h
  | succ n ih =>
    intro port p h
    simp only [findFreePort] at h
    by_cases hmem : port ∈ used
    · simp only [hmem, if_true] at h
      obtain ⟨h1, h2, h3, h4⟩ := ih (port + 1) p h
      refine ⟨by omega, by omega, h3, ?_⟩
      intro q hq1 hq2
      rcases Nat.eq_or_lt_of_le hq1 with rfl | hlt
      · exact hmem
      · exact h4 q hlt hq2
    · simp only [hmem, if_false] at h
      cases h
      exact ⟨le_refl _, by omega, hmem, fun q hq1 hq2 => absurd hq1 (by omega)⟩

theorem findFreePort_none_iff (used : Finset Nat) :
    ∀ fuel port, findFreePort used port fuel = none ↔
      ∀ q, port ≤ q → q < port + fuel → q ∈ used := by
  intro fuel
  induction fuel with
  | zero => intro port; simp [findFreePort]; omega
  | succ n ih =>
    intro port
    simp only [findFreePort]
    by_cases hmem : port ∈ used
    · simp only [hmem, if_true, ih]
      constructor
      · intro h q hq1 hq2
        rcases Nat.eq_or_lt_of_le hq1 with rfl | hlt
        · exact hmem
        · exact h q hlt (by omega)
      · intro h q hq1 hq2
        exact h q (by omega) (by omega)
    · simp only [hmem, if_false]
      constructor
      · intro h; cases h
      · intro h
        exact absurd (h port (le_refl _) (by omega)) hmem

theorem findFreePort_eq_some (used : Finset Nat) :
    ∀ fuel port p, p ∉ used → port ≤ p → p < port + fuel →
      (∀ q, port ≤ q → q < p → q ∈ used) →
      findFreePort used port fuel = some p := by
  intro fuel
  induction fuel with
  | zero => intro port p _ _ h; omega
  | succ n ih =>
    intro port p hfree h1 h2 h3
    simp only [findFreePort]
    rcases Nat.eq_or_lt_of_le h1 with rfl | hlt
    · simp [hfree]
    · have hmem : port ∈ used := h3 port (le_refl _) hlt
      simp only [hmem, if_true]
      exact ih (port + 1) p hfree (by omega) (by omega)
        (fun q hq1 hq2 => h3 q (by omega) hq2)

theorem allocatePort_some_spec (pm : PortManager) (p : Nat) (pm' : PortManager)
    (h : allocatePort pm = some (p, pm')) :
    minPort ≤ p ∧ p ≤ maxPort ∧ p ∉ pm.usedPorts ∧
      (∀ q, minPort ≤ q → q ≤ maxPort → q ∉ pm.usedPorts → p ≤ q) ∧
      pm'.usedPorts = insert p pm.usedPorts := by
  unfold allocatePort at h
  cases hfind : findFreePort pm.usedPorts minPort (maxPort + 1 - minPort) with
  | none => rw [hfind] at h; cases h
  | some p' =>
    rw [hfind] at h
    cases h
    obtain ⟨h1, h2, h3, h4⟩ := findFreePort_some_spec pm.usedPorts _ _ _ hfind
    refine ⟨h1, by simp [minPort, maxPort] at h2 ⊢; omega, h3, ?_, rfl⟩
    intro q hq1 hq2 hq3
    by_contra hlt
    exact hq3 (h4 q hq1 (by omega))

theorem allocatePort_none_iff (pm : PortManager) :
    allocatePort pm = none ↔
      ∀ q, minPort ≤ q → q ≤ maxPort → q ∈ pm.usedPorts := by
  unfold allocatePort
  cases hfind : findFreePort pm.usedPorts minPort (maxPort + 1 - minPort) with
  | none =>
    simp only [true_iff]
    intro q hq1 hq2
    exact (findFreePort_none_iff pm.usedPorts _ _).1 hfind q hq1
      (by simp [minPort, maxPort] at hq2 ⊢; omega)
  | some p =>
    obtain ⟨h1, h2, h3, _⟩ := findFreePort_some_spec pm.usedPorts _ _ _ hfind
    constructor
    · intro h; cases h
    · intro h
      exact absurd (h p h1 (by simp [minPort, maxPort] at h2 ⊢; omega)) h3

theorem allocN_fresh (n : Nat) :
    ∀ pm q, q ∈ (allocN n pm).1 → q ∉ pm.usedPorts := by
  induction n with
  | zero => intro pm q h; simp [allocN] at h
  | succ n ih =>
    intro pm q h
    simp only [allocN] at h
    cases halloc : allocatePort pm with
    | none => rw [halloc] at h; simp at h
    | some r =>
      rw [halloc] at h
      obtain ⟨p, pm'⟩ := r
      simp only [List.mem_cons] at h
      obtain ⟨_, _, h3, _, h5⟩ := allocatePort_some_spec pm p pm' halloc
      rcases h with rfl | h
      · exact h3
      · have := ih pm' q h
        rw [h5] at this
        intro hq
        exact this (Finset.mem_insert_of_mem hq)

theorem allocN_nodup (n : Nat) : ∀ pm, (allocN n pm).1.Nodup := by
  induction n with
  | zero => intro pm; simp [allocN]
  | succ n ih =>
    intro pm
    simp only [allocN]
    cases halloc : allocatePort pm with
    | none => simp
    | some r =>
      obtain ⟨p, pm'⟩ := r
      simp only [List.nodup_cons]
      obtain ⟨_, _, _, _, h5⟩ := allocatePort_some_spec pm p pm' halloc
      refine ⟨fun hmem => ?_, ih pm'⟩
      have := allocN_fresh n pm' p hmem
      rw [h5] at this
      exact this (Finset.mem_insert_self _ _)

theorem allocN_exhausted (n : Nat) :
    ∀ pm, (allocN n pm).1.length < n → allocatePort (allocN n pm).2 = none := by
  induction n with
  | zero => intro pm h; omega
  | succ n ih =>
    intro pm h
    simp only [allocN] at h ⊢
    cases halloc : allocatePort pm with
    | none => simpa using halloc
    | some r =>
      obtain ⟨p, pm'⟩ := r
      rw [halloc] at h
      simp only [List.length_cons] at h
      exact ih pm' (by omega)

/-- Claim C6:  `allocatePort` returns the smallest port of the inclusive range
`[minPort, maxPort]` that is not currently held and marks it held; any sequence
of allocations without intervening releases yields pairwise-distinct ports, and
once a sequence stops short the range is exhausted, so every further allocation
fails (the JS `throw new Error('Aucun port disponible')`, embedded as `none`). -/
theorem C6_allocate_smallest_distinct_exhaustion :
    (∀ pm p pm', allocatePort pm = some (p, pm') →
        minPort ≤ p ∧ p ≤ maxPort ∧ p ∉ pm.usedPorts ∧
          (∀ q, minPort ≤ q → q ≤ maxPort → q ∉ pm.usedPorts → p ≤ q) ∧
          pm'.usedPorts = insert p pm.usedPorts) ∧
    (∀ pm, allocatePort pm = none ↔
        ∀ q, minPort ≤ q → q ≤ maxPort → q ∈ pm.usedPorts) ∧
    (∀ n pm, (allocN n pm).1.Nodup ∧
        ((allocN n pm).1.length < n → allocatePort (allocN n pm).2 = none)) :=
  ⟨allocatePort_some_spec, allocatePort_none_iff,
    fun n pm => ⟨allocN_nodup n pm, allocN_exhausted n pm⟩⟩

/-- Witness for C6 at concrete inputs: from the empty allocator, the first
allocation returns 3001 and inserts it. -/
theorem C6_witness :
    minPort ≤ 3001 ∧ 3001 ≤ maxPort ∧ 3001 ∉ (∅ : Finset Nat) ∧
      (∀ q, minPort ≤ q → q ≤ maxPort → q ∉ (∅ : Finset Nat) → 3001 ≤ q) ∧
      (PortManager.mk {3001}).usedPorts = insert 3001 (∅ : Finset Nat) :=
  C6_allocate_smallest_distinct_exhaustion.1 ⟨∅⟩ 3001 ⟨{3001}⟩ (by decide)

/-- Claim C7:  `releasePort` on a port that is not held is a no-op (no error, no
state change), and for every port of the range there is a holding state from
which `releasePort p` followed by `allocatePort` hands `p` out again. -/
theorem C7_release_noop_and_reuse :
    (∀ pm p, p ∉ pm.usedPorts → releasePort pm p = pm) ∧
    (∀ p, minPort ≤ p → p ≤ maxPort →
        ∃ pm, p ∈ pm.usedPorts ∧
          allocatePort (releasePort pm p) = some (p, pm)) := by
  constructor
  · intro pm p h
    simp [releasePort, h]
  · intro p h1 h2
    refine ⟨fullPortManager, Finset.mem_Icc.2 ⟨h1, h2⟩, ?_⟩
    have hmem : p ∈ fullPortManager.usedPorts := Finset.mem_Icc.2 ⟨h1, h2⟩
    have hrel : releasePort fullPortManager p =
        ⟨(Finset.Icc minPort maxPort).erase p⟩ := by
      unfold releasePort
      rw [if_pos hmem]
      rfl
    rw [hrel]
    unfold allocatePort
    have hfind : findFreePort ((Finset.Icc minPort maxPort).erase p) minPort
        (maxPort + 1 - minPort) = some p := by
      apply findFreePort_eq_some
      · exact Finset.not_mem_erase p _
      · exact h1
      · simp [minPort, maxPort] at h2 ⊢; omega
      · intro q hq1 hq2
        exact Finset.mem_erase.2 ⟨by omega, Finset.mem_Icc.2 ⟨hq1, by omega⟩⟩
    rw [hfind]
    simp only [Option.some.injEq, Prod.mk.injEq, true_and]
    have : insert p ((Finset.Icc minPort maxPort).erase p) =
        Finset.Icc minPort maxPort := Finset.insert_erase hmem
    simp [fullPortManager, this]

/-- Witness for C7 at concrete inputs: releasing 3500 from the empty allocator
changes nothing, and from the full allocator port 3500 can be released and is
then handed out again. -/
theorem C7_witness :
    releasePort ⟨∅⟩ 3500 = (⟨∅⟩ : PortManager) ∧
      ∃ pm, 3500 ∈ pm.usedPorts ∧
        allocatePort (releasePort pm 3500) = some (3500, pm) :=
  ⟨C7_release_noop_and_reuse.1 ⟨∅⟩ 3500 (by decide),
    C7_release_noop_and_reuse.2 3500 (by decide) (by decide)⟩

theorem removeFirstOcc_append (p r : List Char) :
    removeFirstOcc (p ++ r) p = r := by
  cases p with
  | nil =>
    cases r with
    | nil => rfl
    | cons c cs => simp [removeFirstOcc]
  | cons a p' =>
    have hpre : List.isPrefixOf (a :: p') (a :: (p' ++ r)) = true :=
      List.isPrefixOf_iff_prefix.2 (by exact List.prefix_append (a :: p') r)
    show removeFirstOcc (a :: (p' ++ r)) (a :: p') = r
    unfold removeFirstOcc
    rw [if_pos hpre]
    exact List.drop_left (a :: p') r

theorem regHas_regDelete (reg : Registry) (k : String) :
    regHas (regDelete reg k) k = false := by
  rw [Bool.eq_false_iff]
  intro htrue
  simp only [regHas, regDelete] at htrue
  obtain ⟨e, hmem, heq⟩ := List.any_eq_true.1 htrue
  rw [List.mem_filter] at hmem
  have h2 : (e.1 != k) = true := hmem.2
  rw [eq_of_beq heq] at h2
  simp [bne] at h2

theorem regKeys_regSet (reg : Registry) (k : String) (h : ProcHandle) :
    regKeys (regSet reg k h) =
      if regHas reg k then regKeys reg else regKeys reg ++ [k] := by
  by_cases hk : regHas reg k
  · simp only [regSet, hk, if_true, regKeys, List.map_map]
    apply List.map_congr_left
    intro e _
    show Prod.fst (if e.1 == k then (k, h) else e) = e.1
    by_cases he : (e.1 == k) = true
    · rw [if_pos he]
      exact (eq_of_beq he).symm
    · rw [if_neg he]
  · simp [regSet, hk, regKeys]

theorem regKeys_nodup_regSet (reg : Registry) (k : String) (h : ProcHandle)
    (hnd : (regKeys reg).Nodup) : (regKeys (regSet reg k h)).Nodup := by
  rw [regKeys_regSet]
  by_cases hk : regHas reg k
  · simpa [hk]
  · simp only [hk, if_false]
    have hkmem : k ∉ regKeys reg := by
      intro hmem
      apply hk
      obtain ⟨e, he, hek⟩ := List.mem_map.1 hmem
      show reg.any (fun e => e.1 == k) = true
      exact (List.any_eq_true).2 ⟨e, he, by simp [hek]⟩
    simpa [List.nodup_append] using ⟨hnd, hkmem⟩

theorem regSet_count_one (reg : Registry) (k : String) (h : ProcHandle)
    (hnd : (regKeys reg).Nodup) :
    ((regSet reg k h).filter fun e => e.1 == k).length = 1 := by
  rw [← List.countP_eq_length_filter]
  by_cases hk : regHas reg k
  · simp only [regSet, hk, if_true]
    rw [List.countP_map]
    have hpoint : ∀ e : String × ProcHandle,
        ((if (e.1 == k) = true then (k, h) else e).1 == k) = (e.1 == k) := by
      intro e
      by_cases he : (e.1 == k) = true
      · rw [if_pos he, he]
        simp
      · rw [if_neg he]
    have hcongr : ∀ e ∈ reg,
        (((fun x : String × ProcHandle => x.1 == k) ∘
          fun x : String × ProcHandle => if x.1 == k then (k, h) else x) e = true ↔
          ((fun x : String × ProcHandle => x.1 == k) e = true)) := by
      intro e _
      show ((if (e.1 == k) = true then (k, h) else e).1 == k) = true ↔ _
      rw [hpoint e]
    rw [List.countP_congr hcongr]
    have hcount : List.countP (fun e : String × ProcHandle => e.1 == k) reg =
        List.count k (regKeys reg) := by
      rw [List.count_eq_countP, regKeys, List.countP_map]
      rfl
    rw [hcount]
    have hle : List.count k (regKeys reg) ≤ 1 :=
      List.nodup_iff_count_le_one.1 hnd k
    have hmem : k ∈ regKeys reg := by
      simp only [regHas, List.any_eq_true] at hk
      obtain ⟨e, he, hek⟩ := hk
      show k ∈ reg.map Prod.fst
      exact List.mem_map.2 ⟨e, he, eq_of_beq hek⟩
    have hge : 0 < List.count k (regKeys reg) := List.count_pos_iff.2 hmem
    omega
  · simp only [regSet, hk, if_false, List.countP_append]
    have hzero : List.countP (fun e : String × ProcHandle => e.1 == k) reg = 0 := by
      rw [List.countP_eq_zero]
      intro e he heq
      apply hk
      show reg.any (fun e => e.1 == k) = true
      exact List.any_eq_true.2 ⟨e, he, heq⟩
    simp [hzero, List.countP_cons]

/-- Claim C3, counterexample:  Redeploying while a handle is registered: the
trace of `startBackendServer` spawns the new process first and only then kills
the old one, so "the existing process is terminated before the new process is
spawned" fails on this concrete registry. -/
theorem C3_counterexample :
    regHas [("u1-app", ⟨41, false⟩)] "u1-app" = true ∧
    actionPrecedes isKillAction isSpawnAction
      (startBackendTrace [("u1-app", ⟨41, false⟩)] "u1-app" ⟨42, false⟩).1 = false ∧
    (startBackendTrace [("u1-app", ⟨41, false⟩)] "u1-app" ⟨42, false⟩).1 =
      [.spawnNewProcess, .killOld "SIGTERM", .registerNewHandle] := by
  refine ⟨by decide, ?_, ?_⟩ <;> rfl

/-- Claim C3, amended:  On a redeploy under an already-registered key the old
process is sent the graceful `SIGTERM` *after* the new process is spawned but
*before* the new handle is registered; and the registry, a JS `Map`, never
holds two handles under one key: key uniqueness is preserved by `regSet` and
after the redeploy exactly one entry carries the key. -/
theorem C3_amended_kill_before_register :
    (∀ reg key h, regHas reg key = true →
        actionPrecedes isKillAction isRegisterAction
          (startBackendTrace reg key h).1 = true ∧
        StartAction.killOld "SIGTERM" ∈ (startBackendTrace reg key h).1 ∧
        actionPrecedes isSpawnAction isKillAction
          (startBackendTrace reg key h).1 = true) ∧
    (∀ reg key h, (regKeys reg).Nodup →
        (regKeys (startBackendTrace reg key h).2).Nodup ∧
        ((startBackendTrace reg key h).2.filter fun e => e.1 == key).length = 1) := by
  constructor
  · intro reg key h hreg
    simp only [startBackendTrace, hreg, if_true]
    refine ⟨rfl, by simp, rfl⟩
  · intro reg key h hnd
    simp only [startBackendTrace]
    exact ⟨regKeys_nodup_regSet reg key h hnd, regSet_count_one reg key h hnd⟩

/-- Witness for C3 (amended) at a concrete registry holding the key. -/
theorem C3_witness :
    (actionPrecedes isKillAction isRegisterAction
        (startBackendTrace [("u1-app", ⟨41, false⟩)] "u1-app" ⟨42, false⟩).1 = true ∧
      StartAction.killOld "SIGTERM" ∈
        (startBackendTrace [("u1-app", ⟨41, false⟩)] "u1-app" ⟨42, false⟩).1 ∧
      actionPrecedes isSpawnAction isKillAction
        (startBackendTrace [("u1-app", ⟨41, false⟩)] "u1-app" ⟨42, false⟩).1 = true) ∧
    ((regKeys
        (startBackendTrace [("u1-app", ⟨41, false⟩)] "u1-app" ⟨42, false⟩).2).Nodup ∧
      ((startBackendTrace [("u1-app", ⟨41, false⟩)] "u1-app" ⟨42, false⟩).2.filter
          fun e => e.1 == "u1-app").length = 1) :=
  ⟨C3_amended_kill_before_register.1 [("u1-app", ⟨41, false⟩)] "u1-app" ⟨42, false⟩
      (by decide),
    C3_amended_kill_before_register.2 [("u1-app", ⟨41, false⟩)] "u1-app" ⟨42, false⟩
      (by decide)⟩

theorem stopProject_not_found (st : SystemState) (uid nm : String)
    (h : regHas st.registry (uid ++ "-" ++ nm) = false) :
    stopProject st uid nm = (.notFound404, st) := by
  simp [stopProject, h]

/-- Claim C9:  `stop` for a key with no running process returns the 404 result
without changing any state (the handler is a total function, so nothing is
thrown), and `stop` is idempotent: with the key registered, the first call
succeeds and removes the registry entry, and the second call returns 404 and
leaves the state of the first call untouched — the entry is removed exactly
once. -/
theorem C9_stop_idempotent :
    (∀ st uid nm, regHas st.registry (uid ++ "-" ++ nm) = false →
        stopProject st uid nm = (.notFound404, st)) ∧
    (∀ st uid nm, regHas st.registry (uid ++ "-" ++ nm) = true →
        (stopProject st uid nm).1 = .stopped200 ∧
        (stopProject st uid nm).2.registry =
          regDelete st.registry (uid ++ "-" ++ nm) ∧
        regHas (stopProject st uid nm).2.registry (uid ++ "-" ++ nm) = false ∧
        stopProject (stopProject st uid nm).2 uid nm =
          (.notFound404, (stopProject st uid nm).2)) := by
  constructor
  · intro st uid nm hreg
    exact stopProject_not_found st uid nm hreg
  · intro st uid nm hreg
    have hsnd : (stopProject st uid nm).2.registry =
        regDelete st.registry (uid ++ "-" ++ nm) := by
      simp [stopProject, hreg]
    have hhas : regHas (stopProject st uid nm).2.registry
        (uid ++ "-" ++ nm) = false := by
      rw [hsnd]
      exact regHas_regDelete _ _
    exact ⟨by simp [stopProject, hreg], hsnd, hhas,
      stopProject_not_found _ uid nm hhas⟩

/-- Witness for C9 at concrete states: a stop on an empty registry is a 404
no-op, and a registered key is stopped then reported 404 on the second call. -/
theorem C9_witness :
    stopProject ⟨[], []⟩ "u" "app" = (.notFound404, ⟨[], []⟩) ∧
    ((stopProject ⟨[("u-app", ⟨7, false⟩)], [⟨"u", "app", "active"⟩]⟩ "u" "app").1 =
        .stopped200 ∧
      (stopProject ⟨[("u-app", ⟨7, false⟩)], [⟨"u", "app", "active"⟩]⟩ "u" "app").2.registry =
        regDelete [("u-app", ⟨7, false⟩)] ("u" ++ "-" ++ "app") ∧
      regHas (stopProject ⟨[("u-app", ⟨7, false⟩)], [⟨"u", "app", "active"⟩]⟩
          "u" "app").2.registry ("u" ++ "-" ++ "app") = false ∧
      stopProject (stopProject ⟨[("u-app", ⟨7, false⟩)],
          [⟨"u", "app", "active"⟩]⟩ "u" "app").2 "u" "app" =
        (.notFound404,
          (stopProject ⟨[("u-app", ⟨7, false⟩)], [⟨"u", "app", "active"⟩]⟩
            "u" "app").2)) :=
  ⟨C9_stop_idempotent.1 ⟨[], []⟩ "u" "app" (by decide),
    C9_stop_idempotent.2 ⟨[("u-app", ⟨7, false⟩)], [⟨"u", "app", "active"⟩]⟩
      "u" "app" (by decide)⟩

/-- Claim C10, counterexample:  The ownership filter is a bare string-prefix
test: the caller `"u1"` receives the process handle registered under the key
of owner `"u12"` (a different user), whose key is not of the caller's
`"u1-"`-form. -/
theorem C10_counterexample :
    getProcesses [(mkKey "u12" "app", ⟨5, false⟩)] "u1" =
      [⟨"u12-app", 5, true⟩] ∧
    jsStartsWith (mkKey "u12" "app") ("u1" ++ "-") = false ∧
    ("u12" : String) ≠ "u1" := by
  refine ⟨rfl, by decide, by decide⟩

/-- Claim C10, amended:  `GET /processes` returns exactly the registry entries
whose key has the caller's id as a string prefix.  Every entry the caller owns
is returned with its project name, OS pid and running flag; and whenever no
foreign key in the registry extends the caller's id as a string prefix (e.g.
when all owner ids have the same length), the result contains only the
caller's own entries. -/
theorem C10_amended_prefix_filter :
    (∀ reg uid nm h, (mkKey uid nm, h) ∈ reg →
        (⟨nm, h.pid, !h.killed⟩ : ProcInfo) ∈ getProcesses reg uid) ∧
    (∀ reg uid,
        (∀ e ∈ reg, (∃ (nm : String) (h : ProcHandle), e = (mkKey uid nm, h)) ∨
          jsStartsWith e.1 uid = false) →
        ∀ info ∈ getProcesses reg uid,
          ∃ (nm : String) (h : ProcHandle), (mkKey uid nm, h) ∈ reg ∧
            info = ⟨nm, h.pid, !h.killed⟩) := by
  have hstart : ∀ uid nm, jsStartsWith (mkKey uid nm) uid = true := by
    intro uid nm
    simp only [jsStartsWith, mkKey]
    apply List.isPrefixOf_iff_prefix.2
    rw [String.append_assoc, String.data_append]
    exact List.prefix_append _ _
  have hname : ∀ uid nm, jsReplaceOnce (mkKey uid nm) (uid ++ "-") = nm := by
    intro uid nm
    apply String.ext
    show removeFirstOcc (mkKey uid nm).data (uid ++ "-").data = nm.data
    have : (mkKey uid nm).data = (uid ++ "-").data ++ nm.data := by
      simp only [mkKey, String.data_append]
    rw [this]
    exact removeFirstOcc_append _ _
  constructor
  · intro reg uid nm h hmem
    simp only [getProcesses, List.mem_map]
    refine ⟨(mkKey uid nm, h), ?_, ?_⟩
    · exact List.mem_filter.2 ⟨hmem, hstart uid nm⟩
    · simp [hname uid nm]
  · intro reg uid hyp info hinfo
    simp only [getProcesses, List.mem_map] at hinfo
    obtain ⟨e, hefil, hinfoeq⟩ := hinfo
    rw [List.mem_filter] at hefil
    obtain ⟨hememe, hepre⟩ := hefil
    rcases hyp e hememe with ⟨nm, h, rfl⟩ | hfalse
    · refine ⟨nm, h, hememe, ?_⟩
      rw [← hinfoeq]
      simp [hname uid nm]
    · rw [hfalse] at hepre
      cases hepre

/-- Witness for C10 (amended) at a concrete registry: the caller's own entry
is listed, and with same-length owner ids the listing is exactly the caller's. -/
theorem C10_witness :
    (⟨"app", 9, true⟩ : ProcInfo) ∈ getProcesses [(mkKey "u1" "app", ⟨9, false⟩)] "u1" ∧
    ∀ info ∈ getProcesses [(mkKey "u1" "app", ⟨9, false⟩)] "u1",
      ∃ (nm : String) (h : ProcHandle), (mkKey "u1" nm, h) ∈ [(mkKey "u1" "app", ⟨9, false⟩)] ∧
        info = ⟨nm, h.pid, !h.killed⟩ :=
  ⟨C10_amended_prefix_filter.1 [(mkKey "u1" "app", ⟨9, false⟩)] "u1" "app"
      ⟨9, false⟩ (by decide),
    C10_amended_prefix_filter.2 [(mkKey "u1" "app", ⟨9, false⟩)] "u1"
      (by intro e he
          rw [List.mem_singleton] at he
          exact Or.inl ⟨"app", ⟨9, false⟩, he⟩)⟩

theorem startSettle_resolved (port : Nat) :
    ∀ evs : List BEvent,
      (∀ s t, BEvent.output s t ∈ evs → t < 5000 → isReadySignal port s = false) →
      (∀ t, BEvent.errored t ∈ evs → 5000 ≤ t) →
      startSettle port evs = .resolved := by
  intro evs
  induction evs with
  | nil => intro _ _; rfl
  | cons e es ih =>
    intro hout herr
    cases e with
    | output s t =>
      by_cases ht : 5000 ≤ t
      · simp [startSettle, ht]
      · have hready : isReadySignal port s = false :=
          hout s t (List.mem_cons_self _ _) (by omega)
        simp only [startSettle, if_neg ht, hready, Bool.false_eq_true, if_false]
        exact ih (fun s' t' hmem => hout s' t' (List.mem_cons_of_mem _ hmem))
          (fun t' hmem => herr t' (List.mem_cons_of_mem _ hmem))
    | closed c t =>
      by_cases ht : 5000 ≤ t
      · simp [startSettle, ht]
      · simp only [startSettle, if_neg ht]
        exact ih (fun s' t' hmem => hout s' t' (List.mem_cons_of_mem _ hmem))
          (fun t' hmem => herr t' (List.mem_cons_of_mem _ hmem))
    | errored t =>
      have := herr t (List.mem_cons_self _ _)
      simp [startSettle, this]

theorem startSettle_rejected_of_error (port t : Nat) (es : List BEvent)
    (h : t < 5000) : startSettle port (.errored t :: es) = .rejected := by
  simp [startSettle, Nat.not_le.2 h]

theorem digitChar_ne (d : Nat) :
    Nat.digitChar d ≠ '\n' ∧ Nat.digitChar d ≠ '=' := by
  by_cases h : d < 16
  · interval_cases d <;> exact ⟨by decide, by decide⟩
  · have hstar : Nat.digitChar d = '*' := by
      unfold Nat.digitChar
      repeat rw [if_neg (by omega)]
    rw [hstar]
    exact ⟨by decide, by decide⟩

theorem mem_toDigitsCore (b : Nat) :
    ∀ fuel n ds c, c ∈ Nat.toDigitsCore b fuel n ds →
      c ∈ ds ∨ ∃ d, c = Nat.digitChar d := by
  intro fuel
  induction fuel with
  | zero =>
    intro n ds c h
    rw [Nat.toDigitsCore] at h
    exact Or.inl h
  | succ f ih =>
    intro n ds c h
    rw [Nat.toDigitsCore] at h
    by_cases hz : n / b = 0
    · rw [if_pos hz] at h
      rcases List.mem_cons.1 h with rfl | h'
      · exact Or.inr ⟨n % b, rfl⟩
      · exact Or.inl h'
    · rw [if_neg hz] at h
      rcases ih (n / b) ((n % b).digitChar :: ds) c h with h' | h'
      · rcases List.mem_cons.1 h' with rfl | h''
        · exact Or.inr ⟨n % b, rfl⟩
        · exact Or.inl h''
      · exact Or.inr h'

theorem natToString_chars (n : Nat) :
    ∀ c ∈ (toString n).data, c ≠ '\n' ∧ c ≠ '=' := by
  intro c hc
  have hdata : (toString n).data = Nat.toDigitsCore 10 (n + 1) n [] := rfl
  rw [hdata] at hc
  rcases mem_toDigitsCore 10 (n + 1) n [] c hc with h | ⟨d, rfl⟩
  · cases h
  · exact digitChar_ne d

theorem splitNl_line (rest : List Char) :
    ∀ l : List Char, (∀ c ∈ l, c ≠ '\n') →
      splitNl (l ++ '\n' :: rest) = l :: splitNl rest := by
  intro l
  induction l with
  | nil => intro _; simp [splitNl]
  | cons c l' ih =>
    intro hfree
    have hc : c ≠ '\n' := hfree c (List.mem_cons_self _ _)
    have hrec := ih fun x hx => hfree x (List.mem_cons_of_mem _ hx)
    simp only [List.cons_append, splitNl, if_neg hc]
    have hrec' : splitNl (l'.append ('\n' :: rest)) = l' :: splitNl rest := hrec
    rw [hrec']

theorem splitNl_joinLines (rest : List Char) :
    ∀ ls : List String, NlFreeLines ls →
      splitNl ((joinLines ls).data ++ rest) = ls.map String.data ++ splitNl rest := by
  intro ls
  induction ls with
  | nil => intro _; simp [joinLines]
  | cons l ls' ih =>
    intro hfree
    have hl : ∀ c ∈ l.data, c ≠ '\n' := hfree l (List.mem_cons_self _ _)
    have hrec := ih fun x hx => hfree x (List.mem_cons_of_mem _ hx)
    show splitNl ((l ++ "\n" ++ joinLines ls').data ++ rest) = _
    rw [String.data_append, String.data_append]
    have hnl : ("\n" : String).data = ['\n'] := rfl
    rw [hnl]
    rw [List.append_assoc, List.append_assoc]
    show splitNl (l.data ++ '\n' :: ((joinLines ls').data ++ rest)) = _
    rw [splitNl_line _ l.data hl, hrec]
    rfl

theorem joinVars_newline :
    ∀ (vs : List String) (v : String),
      joinVars (v :: vs) ++ "\n" = joinLines (v :: vs) := by
  intro vs
  induction vs with
  | nil =>
    intro v
    show v ++ "\n" = v ++ "\n" ++ ""
    rw [String.append_empty]
  | cons w vs' ih =>
    intro v
    show (v ++ "\n" ++ joinVars (w :: vs')) ++ "\n" = v ++ "\n" ++ joinLines (w :: vs')
    rw [String.append_assoc, ih w]

theorem parseLine_key (v : List Char) :
    ∀ k : List Char, (∀ c ∈ k, c ≠ '=') →
      parseLine (k ++ '=' :: v) = (k, v) := by
  intro k
  induction k with
  | nil => intro _; simp [parseLine]
  | cons c k' ih =>
    intro hfree
    have hc : c ≠ '=' := hfree c (List.mem_cons_self _ _)
    have hrec := ih fun x hx => hfree x (List.mem_cons_of_mem _ hx)
    simp [parseLine, hc, hrec]

theorem takeWhile_key (v : List Char) :
    ∀ k : List Char, (∀ c ∈ k, c ≠ '=') →
      List.takeWhile (fun c => c != '=') (k ++ '=' :: v) = k := by
  intro k
  induction k with
  | nil => intro _; simp [List.takeWhile]
  | cons c k' ih =>
    intro hfree
    have hc : c ≠ '=' := hfree c (List.mem_cons_self _ _)
    have hrec := ih fun x hx => hfree x (List.mem_cons_of_mem _ hx)
    simp only [List.cons_append, List.takeWhile]
    have : (c != '=') = true := by simpa using hc
    rw [this]
    simp [hrec]

theorem envVarFront_data (port : Nat) :
    ("VITE_API_URL=http://localhost:" ++ toString port).data =
      "VITE_API_URL".data ++ '=' :: ("http://localhost:" ++ toString port).data := by
  rw [String.data_append, String.data_append]
  have h : ("VITE_API_URL=http://localhost:" : String).data =
      "VITE_API_URL".data ++ '=' :: ("http://localhost:" : String).data := by decide
  rw [h, List.append_assoc]
  rfl

theorem envVarBack_data (port : Nat) :
    ("BACKEND_ADRESSE=http://localhost:" ++ toString port).data =
      "BACKEND_ADRESSE".data ++ '=' :: ("http://localhost:" ++ toString port).data := by
  rw [String.data_append, String.data_append]
  have h : ("BACKEND_ADRESSE=http://localhost:" : String).data =
      "BACKEND_ADRESSE".data ++ '=' :: ("http://localhost:" : String).data := by decide
  rw [h, List.append_assoc]
  rfl

theorem append_chars {s t : String} {P : Char → Prop}
    (hs : ∀ c ∈ s.data, P c) (ht : ∀ c ∈ t.data, P c) :
    ∀ c ∈ (s ++ t).data, P c := by
  intro c hc
  rw [String.data_append] at hc
  rcases List.mem_append.1 hc with h | h
  · exact hs c h
  · exact ht c h

theorem envVar_nlFree (port : Nat) : NlFreeLines (envVarsFor port) := by
  intro v hv
  have hfront : ∀ c ∈ ("VITE_API_URL=http://localhost:" ++ toString port).data,
      c ≠ '\n' :=
    append_chars (by decide) (fun c hc => (natToString_chars port c hc).1)
  have hback : ∀ c ∈ ("BACKEND_ADRESSE=http://localhost:" ++ toString port).data,
      c ≠ '\n' :=
    append_chars (by decide) (fun c hc => (natToString_chars port c hc).1)
  rcases List.mem_cons.1 hv with rfl | hv'
  · exact hfront
  · rcases List.mem_cons.1 hv' with rfl | hv''
    · exact hback
    · cases hv''

theorem envVar_ne_nil (port : Nat) : ∀ v ∈ envVarsFor port, v.data ≠ [] := by
  intro v hv
  rcases List.mem_cons.1 hv with rfl | hv'
  · rw [envVarFront_data]
    simp
  · rcases List.mem_cons.1 hv' with rfl | hv''
    · rw [envVarBack_data]
      simp
    · cases hv''

theorem keyOf_envVarFront (port : Nat) :
    keyOf ("VITE_API_URL=http://localhost:" ++ toString port) = "VITE_API_URL" := by
  apply String.ext
  show List.takeWhile (fun c => c != '=')
      ("VITE_API_URL=http://localhost:" ++ toString port).data = _
  rw [envVarFront_data]
  exact takeWhile_key _ _ (by decide)

theorem keyOf_envVarBack (port : Nat) :
    keyOf ("BACKEND_ADRESSE=http://localhost:" ++ toString port) = "BACKEND_ADRESSE" := by
  apply String.ext
  show List.takeWhile (fun c => c != '=')
      ("BACKEND_ADRESSE=http://localhost:" ++ toString port).data = _
  rw [envVarBack_data]
  exact takeWhile_key _ _ (by decide)

theorem parseLine_envVarFront (port : Nat) :
    parseLine ("VITE_API_URL=http://localhost:" ++ toString port).data =
      ("VITE_API_URL".data, ("http://localhost:" ++ toString port).data) := by
  rw [envVarFront_data]
  exact parseLine_key _ _ (by decide)

theorem parseLine_envVarBack (port : Nat) :
    parseLine ("BACKEND_ADRESSE=http://localhost:" ++ toString port).data =
      ("BACKEND_ADRESSE".data, ("http://localhost:" ++ toString port).data) := by
  rw [envVarBack_data]
  exact parseLine_key _ _ (by decide)

theorem filterMap_parse (vs : List String) (hne : ∀ v ∈ vs, v.data ≠ []) :
    (vs.map String.data).filterMap
        (fun l => if l.isEmpty then none else some (parseLine l)) =
      vs.map fun v => parseLine v.data := by
  induction vs with
  | nil => rfl
  | cons v vs' ih =>
    have hv : v.data ≠ [] := hne v (List.mem_cons_self _ _)
    have hemp : (v.data).isEmpty = false := List.isEmpty_eq_false.2 hv
    simp only [List.map_cons, List.filterMap_cons, hemp, Bool.false_eq_true, if_false]
    rw [ih fun x hx => hne x (List.mem_cons_of_mem _ hx)]

theorem envBindings_append (ls vs : List String)
    (hls : NlFreeLines ls) (hvs : NlFreeLines vs)
    (hne : ∀ v ∈ vs, v.data ≠ []) :
    envBindings (joinLines ls ++ joinLines vs) =
      envBindings (joinLines ls) ++ vs.map fun v => parseLine v.data := by
  have hsplit2 : splitNl ((joinLines vs).data) = vs.map String.data ++ [[]] := by
    have h := splitNl_joinLines [] vs hvs
    simpa [splitNl] using h
  have hsplit1 : splitNl ((joinLines ls).data) = ls.map String.data ++ [[]] := by
    have h := splitNl_joinLines [] ls hls
    simpa [splitNl] using h
  unfold envBindings
  rw [String.data_append, splitNl_joinLines _ ls hls, hsplit2, hsplit1]
  rw [List.filterMap_append, List.filterMap_append, List.filterMap_append]
  rw [filterMap_parse vs hne]
  have hnil : List.filterMap
      (fun l : List Char => if l.isEmpty then none else some (parseLine l)) [[]] =
      [] := rfl
  rw [hnil, List.append_nil, List.append_nil]

theorem envBindings_joinLines (vs : List String) (hvs : NlFreeLines vs)
    (hne : ∀ v ∈ vs, v.data ≠ []) :
    envBindings (joinLines vs) = vs.map fun v => parseLine v.data := by
  have h := envBindings_append [] vs (by intro l hl; cases hl) hvs hne
  have hnil : joinLines [] ++ joinLines vs = joinLines vs := by
    show "" ++ joinLines vs = joinLines vs
    exact String.empty_append _
  rw [hnil] at h
  have h0 : envBindings (joinLines []) = [] := rfl
  rw [h0] at h
  simpa using h

theorem syncEnvContent_some (old : String) (port : Nat) :
    syncEnvContent (some old) port =
      old ++ joinLines ((envVarsFor port).filter fun v => !containsSub old (keyOf v)) := by
  unfold syncEnvContent
  simp only [Option.getD]
  cases hkept : (envVarsFor port).filter fun v => !containsSub old (keyOf v) with
  | nil =>
    show old = old ++ joinLines []
    rw [show joinLines [] = "" from rfl, String.append_empty]
  | cons v vs =>
    show old ++ joinVars (v :: vs) ++ "\n" = old ++ joinLines (v :: vs)
    rw [String.append_assoc, joinVars_newline vs v]

theorem syncEnvContent_no_file (port : Nat) :
    syncEnvContent none port = joinLines (envVarsFor port) := by
  have h1 : (!containsSub ""
      (keyOf ("VITE_API_URL=http://localhost:" ++ toString port))) = true := by
    rw [keyOf_envVarFront]
    decide
  have h2 : (!containsSub ""
      (keyOf ("BACKEND_ADRESSE=http://localhost:" ++ toString port))) = true := by
    rw [keyOf_envVarBack]
    decide
  have hfilter : ((envVarsFor port).filter fun v => !containsSub "" (keyOf v)) =
      envVarsFor port := by
    show List.filter _
        (("VITE_API_URL=http://localhost:" ++ toString port) ::
          ("BACKEND_ADRESSE=http://localhost:" ++ toString port) :: []) = _
    rw [List.filter_cons, if_pos h1, List.filter_cons, if_pos h2, List.filter_nil]
    rfl
  unfold syncEnvContent
  simp only [Option.getD]
  rw [hfilter]
  rw [show (envVarsFor port).isEmpty = false from rfl]
  simp only [Bool.false_eq_true, if_false]
  rw [String.empty_append]
  exact joinVars_newline [("BACKEND_ADRESSE=http://localhost:" ++ toString port)]
    ("VITE_API_URL=http://localhost:" ++ toString port)

/-- Claim C5, counterexample:  With an existing `frontend/.env` that defines the
API-base key but lacks a trailing newline, the sync appends the missing
backend-address variable directly onto the last line: the original value of
`VITE_API_URL` is changed and `BACKEND_ADRESSE` ends up bound to nothing, so
"keys already present are left untouched and only missing keys are appended"
fails at this concrete input. -/
theorem C5_counterexample :
    envLookup "VITE_API_URL" "VITE_API_URL=http://example.com" =
      some ("http://example.com").data ∧
    envLookup "VITE_API_URL"
        (syncEnvContent (some "VITE_API_URL=http://example.com") 3001) ≠
      some ("http://example.com").data ∧
    envLookup "BACKEND_ADRESSE"
        (syncEnvContent (some "VITE_API_URL=http://example.com") 3001) = none := by
  refine ⟨by decide, by decide, by decide⟩

/-- Claim C5, amended:  The sync never rewrites existing content — it only
appends, and a variable is appended exactly when its key string does not occur
anywhere in the existing content (a substring test, not a parsed-key test).
When the existing `.env` is a newline-terminated sequence of lines (or is
absent), every key already bound keeps its original value and the appended
variables parse as fresh `key = http://localhost:<port>` bindings; when the
file lacks its trailing newline the first appended variable merges into the
last existing line (see the counterexample).  With no `.env` file at all, a
file binding both keys to `http://localhost:<port>` is created. -/
theorem C5_amended_env_append :
    (∀ ls port, NlFreeLines ls → ∀ k : String,
        (envLookup k (joinLines ls)).isSome = true →
        envLookup k (syncEnvContent (some (joinLines ls)) port) =
          envLookup k (joinLines ls)) ∧
    (∀ ls port, NlFreeLines ls →
        envBindings (syncEnvContent (some (joinLines ls)) port) =
          envBindings (joinLines ls) ++
            ((envVarsFor port).filter fun v =>
              !containsSub (joinLines ls) (keyOf v)).map fun v => parseLine v.data) ∧
    (∀ port : Nat,
        parseLine ("VITE_API_URL=http://localhost:" ++ toString port).data =
          ("VITE_API_URL".data, ("http://localhost:" ++ toString port).data) ∧
        parseLine ("BACKEND_ADRESSE=http://localhost:" ++ toString port).data =
          ("BACKEND_ADRESSE".data, ("http://localhost:" ++ toString port).data)) ∧
    (∀ port : Nat,
        envBindings (syncEnvContent none port) =
          [("VITE_API_URL".data, ("http://localhost:" ++ toString port).data),
           ("BACKEND_ADRESSE".data, ("http://localhost:" ++ toString port).data)]) := by
  have hbind : ∀ ls port, NlFreeLines ls →
      envBindings (syncEnvContent (some (joinLines ls)) port) =
        envBindings (joinLines ls) ++
          ((envVarsFor port).filter fun v =>
            !containsSub (joinLines ls) (keyOf v)).map fun v => parseLine v.data := by
    intro ls port hls
    rw [syncEnvContent_some]
    exact envBindings_append ls _ hls
      (fun v hv => envVar_nlFree port v (List.mem_of_mem_filter hv))
      (fun v hv => envVar_ne_nil port v (List.mem_of_mem_filter hv))
  refine ⟨?_, hbind, ?_, ?_⟩
  · intro ls port hls k hsome
    unfold envLookup
    rw [hbind ls port hls, List.find?_append]
    cases hf : (envBindings (joinLines ls)).find? fun e => e.1 == k.data with
    | none => exact absurd hsome (by simp [envLookup, hf])
    | some e => rfl
  · intro port
    exact ⟨parseLine_envVarFront port, parseLine_envVarBack port⟩
  · intro port
    rw [syncEnvContent_no_file,
      envBindings_joinLines _ (envVar_nlFree port) (envVar_ne_nil port)]
    show [parseLine ("VITE_API_URL=http://localhost:" ++ toString port).data,
      parseLine ("BACKEND_ADRESSE=http://localhost:" ++ toString port).data] = _
    rw [parseLine_envVarFront port, parseLine_envVarBack port]

/-- Witness for C5 (amended) at a concrete file: a pre-existing binding
`FOO=bar` survives the sync unchanged. -/
theorem C5_witness :
    envLookup "FOO" (syncEnvContent (some (joinLines ["FOO=bar"])) 3001) =
      envLookup "FOO" (joinLines ["FOO=bar"]) :=
  C5_amended_env_append.1 ["FOO=bar"] 3001
    (by unfold NlFreeLines; decide) "FOO" (by decide)

theorem findDirsGo_spec (f : FsForest) :
    ∀ root fr bk,
      (findDirsGo root f fr bk).1.isSome = (fr.isSome || forestHasDir "frontend" f) ∧
      (findDirsGo root f fr bk).2.isSome = (bk.isSome || forestHasDir "backend" f) := by
  induction f with
  | nil =>
    intro root fr bk
    simp [findDirsGo, forestHasDir]
  | cons name sub rest ihsub ihrest =>
    intro root fr bk
    have ihr1 : ∀ root fr bk, (findDirsGo root rest fr bk).1.isSome =
        (fr.isSome || forestHasDir "frontend" rest) :=
      fun root fr bk => (ihrest root fr bk).1
    have ihr2 : ∀ root fr bk, (findDirsGo root rest fr bk).2.isSome =
        (bk.isSome || forestHasDir "backend" rest) :=
      fun root fr bk => (ihrest root fr bk).2
    have ihs1 : ∀ root, (findDirsGo root sub none none).1.isSome =
        forestHasDir "frontend" sub := by
      intro root
      simpa using (ihsub root none none).1
    have ihs2 : ∀ root, (findDirsGo root sub none none).2.isSome =
        forestHasDir "backend" sub := by
      intro root
      simpa using (ihsub root none none).2
    constructor <;>
      · simp only [findDirsGo, forestHasDir, ihr1, ihr2]
        cases hf : jsToLower name == "frontend" <;>
          cases hb : jsToLower name == "backend" <;>
            cases fr <;> cases bk <;>
              simp [hf, hb, ihs1, ihs2, Bool.or_assoc]

theorem deployCatch_blob (st : DeployState) (op : Option Nat) (k : String) :
    (deployCatch st true op k).blobOnDisk = false := by
  cases op <;>
    · simp only [deployCatch, if_true]
      split_ifs <;> rfl

theorem deployCatch_dir (st : DeployState) (t : Bool) (op : Option Nat) (k : String) :
    (deployCatch st t op k).projectDirExists = st.projectDirExists := by
  cases t <;> cases op <;>
    · simp only [deployCatch, if_true, if_false]
      split_ifs <;> rfl

theorem deployCatch_pm (st : DeployState) (t : Bool) (p : Nat) (k : String) :
    (deployCatch st t (some p) k).pm = releasePort st.pm p := by
  cases t <;>
    · simp only [deployCatch, if_true, if_false]
      split_ifs <;> rfl

theorem releasePort_alloc (pm pm' : PortManager) (p : Nat)
    (h : allocatePort pm = some (p, pm')) : releasePort pm' p = pm := by
  obtain ⟨_, _, hfree, _, hins⟩ := allocatePort_some_spec pm p pm' h
  unfold releasePort
  rw [hins, if_pos (Finset.mem_insert_self p _), Finset.erase_insert hfree]

/-- Claim C1, counterexample:  A deployment that fails at the backend
dependency-install stage: the allocated port is released (the allocator is
empty again) and the blob is deleted, but the staged project directory is
still on disk afterwards — the catch block of part_005 has no
`fs.rm(projectPath)`. -/
theorem C1_counterexample :
    (deployDynamic ⟨"u1", "app", true⟩ envInstallFail st0).1 =
      .serverError .installBackend ∧
    (deployDynamic ⟨"u1", "app", true⟩ envInstallFail st0).2.pm.usedPorts = ∅ ∧
    (deployDynamic ⟨"u1", "app", true⟩ envInstallFail st0).2.blobOnDisk = false ∧
    (deployDynamic ⟨"u1", "app", true⟩ envInstallFail st0).2.projectDirExists =
      true := by
  refine ⟨by decide, by decide, by decide, by decide⟩

/-- Claim C1, amended:  A dynamic deployment that fails at either
dependency-install stage releases its allocated port (the allocator returns to
its pre-deployment state) and deletes the uploaded blob, but the staged
project directory is left on disk: the part_005 error path never removes
`projectPath`. -/
theorem C1_amended_install_rollback :
    ∀ req env st, req.hasFile = true → jsTrim req.projectName ≠ "" →
      env.existingProject = false → env.extractOk = true →
      ((findTopDirs env.entries).1.isNone || (findTopDirs env.entries).2.isNone)
        = false →
      env.frontendManifestOk = true → env.backendManifestOk = true →
      (env.backendInstallOk = false ∨ env.frontendInstallOk = false) →
      ∀ p pm', allocatePort st.pm = some (p, pm') →
        ((deployDynamic req env st).1 = .serverError .installBackend ∨
          (deployDynamic req env st).1 = .serverError .installFrontend) ∧
        (deployDynamic req env st).2.pm = st.pm ∧
        (deployDynamic req env st).2.blobOnDisk = false ∧
        (deployDynamic req env st).2.projectDirExists = true := by
  intro req env st hfile hname hconf hex hdirs hmf hmb hinst p pm' halloc
  have hpm : releasePort pm' p = st.pm := releasePort_alloc st.pm pm' p halloc
  rcases hinst with hb | hfr
  · refine ⟨Or.inl ?_, ?_, ?_, ?_⟩ <;>
      simp [deployDynamic, hfile, hname, hconf, hex, hdirs, hmf, hmb, halloc, hb,
        deployCatch_blob, deployCatch_dir, deployCatch_pm, hpm]
  · cases hb : env.backendInstallOk
    · refine ⟨Or.inl ?_, ?_, ?_, ?_⟩ <;>
        simp [deployDynamic, hfile, hname, hconf, hex, hdirs, hmf, hmb, halloc,
          hb, deployCatch_blob, deployCatch_dir, deployCatch_pm, hpm]
    · refine ⟨Or.inr ?_, ?_, ?_, ?_⟩ <;>
        simp [deployDynamic, hfile, hname, hconf, hex, hdirs, hmf, hmb, halloc,
          hb, hfr, deployCatch_blob, deployCatch_dir, deployCatch_pm, hpm]

/-- Witness for C1 (amended) at the concrete install-failure run. -/
theorem C1_witness :
    ((deployDynamic ⟨"u1", "app", true⟩ envInstallFail st0).1 =
        .serverError .installBackend ∨
      (deployDynamic ⟨"u1", "app", true⟩ envInstallFail st0).1 =
        .serverError .installFrontend) ∧
    (deployDynamic ⟨"u1", "app", true⟩ envInstallFail st0).2.pm = st0.pm ∧
    (deployDynamic ⟨"u1", "app", true⟩ envInstallFail st0).2.blobOnDisk = false ∧
    (deployDynamic ⟨"u1", "app", true⟩ envInstallFail st0).2.projectDirExists =
      true :=
  C1_amended_install_rollback ⟨"u1", "app", true⟩ envInstallFail st0
    (by decide) (by decide) (by decide) (by decide) (by decide) (by decide)
    (by decide) (Or.inl (by decide)) 3001 ⟨{3001}⟩ (by decide)

/-- Claim C2, counterexample:  A backend process that exits 1 s after the spawn,
before any readiness signal: the `close` handler never rejects the promise, so
`start` still resolves at the 5-second fallback, the deployment reports
success with the allocated port, and no rollback happens — the port stays
held.  This refutes "if the process crashes before any readiness signal,
start fails with a StartupError and the deployment rolls back including port
release". -/
theorem C2_counterexample :
    startSettle 3001 [BEvent.closed 1 1000] = .resolved ∧
    (deployDynamic ⟨"u1", "app", true⟩ envCrash st0).1 = .ok 3001 ∧
    isPortInUse (deployDynamic ⟨"u1", "app", true⟩ envCrash st0).2.pm 3001 =
      true := by
  refine ⟨by decide, by decide, by decide⟩

/-- Claim C2, amended:  Readiness settlement of `startBackendServer`: (1) when
no readiness substring is seen before the 5 s mark and no spawn-level `error`
event fires in that window, start resolves optimistically — this holds even if
the process has already exited, since the `close` handler never rejects;
(2) a spawn-level `error` event within the window rejects; (3) the `close`
handler always removes the registry entry; (4) when start rejects, the deploy
pipeline rolls back: 500 response, port released, blob deleted. -/
theorem C2_amended_readiness_fallback :
    (∀ port : Nat, ∀ evs : List BEvent,
        (∀ s t, BEvent.output s t ∈ evs → t < 5000 → isReadySignal port s = false) →
        (∀ t, BEvent.errored t ∈ evs → 5000 ≤ t) →
        startSettle port evs = .resolved) ∧
    (∀ port t : Nat, ∀ es : List BEvent, t < 5000 →
        startSettle port (BEvent.errored t :: es) = .rejected) ∧
    (∀ reg : Registry, ∀ k : String, regHas (regDelete reg k) k = false) ∧
    (∀ req env st, req.hasFile = true → jsTrim req.projectName ≠ "" →
        env.existingProject = false → env.extractOk = true →
        ((findTopDirs env.entries).1.isNone || (findTopDirs env.entries).2.isNone)
          = false →
        env.frontendManifestOk = true → env.backendManifestOk = true →
        env.backendInstallOk = true → env.frontendInstallOk = true →
        ∀ p pm', allocatePort st.pm = some (p, pm') →
          startSettle p env.startEvents = .rejected →
          (deployDynamic req env st).1 = .serverError .startup ∧
          (deployDynamic req env st).2.pm = st.pm ∧
          (deployDynamic req env st).2.blobOnDisk = false) := by
  refine ⟨startSettle_resolved, startSettle_rejected_of_error, regHas_regDelete, ?_⟩
  intro req env st hfile hname hconf hex hdirs hmf hmb hbi hfi p pm' halloc hrej
  have hpm : releasePort pm' p = st.pm := releasePort_alloc st.pm pm' p halloc
  refine ⟨?_, ?_, ?_⟩ <;>
    simp [deployDynamic, hfile, hname, hconf, hex, hdirs, hmf, hmb, hbi, hfi,
      halloc, hrej, deployCatch_blob, deployCatch_pm, hpm]

/-- Witness for C2 (amended): a spawn error at 100 ms rejects, and the
concrete spawn-error deployment rolls back with the port released. -/
theorem C2_witness :
    startSettle 3001 [BEvent.errored 100] = .rejected ∧
    ((deployDynamic ⟨"u1", "app", true⟩ envSpawnError st0).1 =
        .serverError .startup ∧
      (deployDynamic ⟨"u1", "app", true⟩ envSpawnError st0).2.pm = st0.pm ∧
      (deployDynamic ⟨"u1", "app", true⟩ envSpawnError st0).2.blobOnDisk =
        false) :=
  ⟨C2_amended_readiness_fallback.2.1 3001 100 [] (by decide),
    C2_amended_readiness_fallback.2.2.2 ⟨"u1", "app", true⟩ envSpawnError st0
      (by decide) (by decide) (by decide) (by decide) (by decide) (by decide)
      (by decide) (by decide) (by decide) 3001 ⟨{3001}⟩ (by decide) (by decide)⟩

/-- Claim C4, counterexample:  `findDirs` does not implement first-found
semantics: on this forest the first case-insensitive match in depth-first
pre-order is `a/frontend`, yet the direct top-level match `frontend`
encountered later overwrites it. -/
theorem C4_counterexample :
    (findDirs cexForest).1 = some ["frontend"] ∧
    specFirstMatch "frontend" [] cexForest = some ["a", "frontend"] ∧
    (findDirs cexForest).1 ≠ specFirstMatch "frontend" [] cexForest := by
  refine ⟨by decide, by decide, by decide⟩

/-- Claim C4, amended:  The structure check locates the two directories by
case-insensitive name match at any nesting depth: `findDirs` reports a
frontend (resp. backend) hit exactly when such a directory exists anywhere in
the tree — though not with first-found semantics: a direct sibling match
overwrites an earlier-found one (see the counterexample).  A deployment whose
tree lacks either directory at every depth fails with the structure error and
leaves no project directory, no allocated port, and no process behind: the
final state differs from the initial one only in that the blob and the
project directory are gone (allocator and registry are untouched). -/
theorem C4_amended_structure_search :
    (∀ f : FsForest,
        (findDirs f).1.isSome = forestHasDir "frontend" f ∧
        (findDirs f).2.isSome = forestHasDir "backend" f) ∧
    (∀ req env st, req.hasFile = true → jsTrim req.projectName ≠ "" →
        env.existingProject = false → env.extractOk = true →
        (forestHasDir "frontend" env.tree = false ∨
          forestHasDir "backend" env.tree = false) →
        deployDynamicHosting req env st =
          (.serverError .structureMissing,
            { st with blobOnDisk := false, projectDirExists := false })) := by
  have hiff : ∀ f : FsForest,
      (findDirs f).1.isSome = forestHasDir "frontend" f ∧
      (findDirs f).2.isSome = forestHasDir "backend" f := by
    intro f
    have h := findDirsGo_spec f [] none none
    simpa [findDirs] using h
  refine ⟨hiff, ?_⟩
  intro req env st hfile hname hconf hex hmiss
  have hdirs : ((findDirs env.tree).1.isNone || (findDirs env.tree).2.isNone)
      = true := by
    rcases hmiss with h | h
    · have h1 := (hiff env.tree).1
      rw [h] at h1
      have : (findDirs env.tree).1 = none := by
        cases hopt : (findDirs env.tree).1 with
        | none => rfl
        | some v => rw [hopt] at h1; cases h1
      simp [this]
    · have h2 := (hiff env.tree).2
      rw [h] at h2
      have : (findDirs env.tree).2 = none := by
        cases hopt : (findDirs env.tree).2 with
        | none => rfl
        | some v => rw [hopt] at h2; cases h2
      simp [this]
  simp [deployDynamicHosting, hfile, hname, hconf, hex, hdirs, hostingCatch]

/-- Witness for C4 (amended) at the concrete dir-less tree. -/
theorem C4_witness :
    deployDynamicHosting ⟨"u1", "app", true⟩ envNoDirs st0 =
      (.serverError .structureMissing,
        { st0 with blobOnDisk := false, projectDirExists := false }) :=
  C4_amended_structure_search.2 ⟨"u1", "app", true⟩ envNoDirs st0
    (by decide) (by decide) (by decide) (by decide) (Or.inl (by decide))

/-- Claim C8, counterexample:  A request that carries an uploaded archive but an
empty project name exits through the 400 validation path with the state — and
in particular the uploaded blob — untouched: `tempFilePath` is only assigned
after the conflict check, so the early returns never unlink the upload. -/
theorem C8_counterexample :
    (deployDynamic ⟨"u1", "", true⟩ envInstallFail st0).1 = .badRequest ∧
    (deployDynamic ⟨"u1", "", true⟩ envInstallFail st0).2.blobOnDisk = true := by
  refine ⟨by decide, by decide⟩

/-- Claim C8, amended:  Every run of the dynamic pipeline either exits through
the 400/409 early-return paths — which change no state at all, leaving the
uploaded blob on disk — or deletes the uploaded blob before responding (every
caught stage failure and the success path unlink it). -/
theorem C8_amended_blob_cleanup :
    ∀ req env st,
      (((deployDynamic req env st).1 = .badRequest ∨
          (deployDynamic req env st).1 = .conflict) ∧
        (deployDynamic req env st).2 = st) ∨
      (deployDynamic req env st).2.blobOnDisk = false := by
  intro req env st
  cases hf : req.hasFile with
  | false =>
    exact Or.inl ⟨Or.inl (by simp [deployDynamic, hf]), by simp [deployDynamic, hf]⟩
  | true =>
  by_cases hn : jsTrim req.projectName = ""
  · exact Or.inl ⟨Or.inl (by simp [deployDynamic, hf, hn]),
      by simp [deployDynamic, hf, hn]⟩
  cases hc : env.existingProject with
  | true =>
    exact Or.inl ⟨Or.inr (by simp [deployDynamic, hf, hn, hc]),
      by simp [deployDynamic, hf, hn, hc]⟩
  | false =>
  cases he : env.extractOk with
  | false =>
    exact Or.inr (by simp [deployDynamic, hf, hn, hc, he, deployCatch_blob])
  | true =>
  cases hd : (findTopDirs env.entries).1.isNone || (findTopDirs env.entries).2.isNone with
  | true =>
    exact Or.inr (by simp [deployDynamic, hf, hn, hc, he, hd, deployCatch_blob])
  | false =>
  cases hmf : env.frontendManifestOk with
  | false =>
    exact Or.inr (by simp [deployDynamic, hf, hn, hc, he, hd, hmf, deployCatch_blob])
  | true =>
  cases hmb : env.backendManifestOk with
  | false =>
    exact Or.inr (by
      simp [deployDynamic, hf, hn, hc, he, hd, hmf, hmb, deployCatch_blob])
  | true =>
  rcases halloc : allocatePort st.pm with _ | ⟨p, pm'⟩
  · exact Or.inr (by
      simp [deployDynamic, hf, hn, hc, he, hd, hmf, hmb, halloc, deployCatch_blob])
  cases hbi : env.backendInstallOk with
  | false =>
    exact Or.inr (by
      simp [deployDynamic, hf, hn, hc, he, hd, hmf, hmb, halloc, hbi,
        deployCatch_blob])
  | true =>
  cases hfi : env.frontendInstallOk with
  | false =>
    exact Or.inr (by
      simp [deployDynamic, hf, hn, hc, he, hd, hmf, hmb, halloc, hbi, hfi,
        deployCatch_blob])
  | true =>
  by_cases hrej : startSettle p env.startEvents = .rejected
  · exact Or.inr (by
      simp [deployDynamic, hf, hn, hc, he, hd, hmf, hmb, halloc, hbi, hfi, hrej,
        deployCatch_blob])
  cases hdb : env.dbInsertOk with
  | false =>
    exact Or.inr (by
      simp [deployDynamic, hf, hn, hc, he, hd, hmf, hmb, halloc, hbi, hfi, hrej,
        hdb, deployCatch_blob])
  | true =>
    exact Or.inr (by
      simp [deployDynamic, hf, hn, hc, he, hd, hmf, hmb, halloc, hbi, hfi, hrej,
        hdb])

end HostedHost

